import Mathlib

/-! Leveled logging facade (`log.go`): a shallow embedding

The Go file `log.go` wraps a logging engine (`lorg`), a status bar and the
hierarchical error library (`hierr`).  This development embeds

* the Go values that can reach the facade (`Value`, `GoError`),
* the pieces of `strings` and `fmt` that the file calls,
* the process-wide configuration as an explicit `State` together with the
  trace of externally visible effects (`Event`),
* every function of `log.go` that the verified properties speak about.

Go strings are Lean strings; the operations of package `strings` are defined on
the underlying character lists.  A line break is the single byte `0x0A`, which
never occurs inside a multi-byte UTF-8 sequence, so for UTF-8 text the
character-level operations agree with the byte-level ones of Go.

The logging engine, the status bar and the process exit are external to
`log.go`: a call to one of them is recorded as an `Event`, in call order.
An in-place rewrite of the caller's argument slice is not part of the state.
-/

namespace Lorg

/-! ## Go values -/

mutual
/-- A Go `interface{}` value as far as `log.go` can tell values apart: the nil
interface, a `string`, an error, a `[]hierr.NestedError`, or anything else
(given by the text `fmt` prints for it under `%v`, and whether its reflect kind
is `String`, which `fmt.Sprint` consults for spacing). -/
inductive Value where
  | nil
  | str (s : String)
  | other (text : String) (stringKind : Bool)
  | error (e : GoError)
  | parts (ps : List Value)
/-- A Go `error`: either a `hierr.Error` (fields `Message` and `Nested`) or any
other error, given by the text its `Error()` method returns, the text `fmt`
prints for it under `%v` (the two differ when the error implements
`fmt.Formatter`, which `fmt` consults before `Error()`), and whether its reflect
kind is `String`. -/
inductive GoError where
  | plain (text : String) (printed : String) (stringKind : Bool)
  | hier (Message : String) (Nested : Value)
end

/-- The functions of external libraries that `log.go` calls and whose output
format is not fixed here: `fmt.Sprintf` and the tree rendering
`hierr.Error.Error()` of the vendored hierarchical error library. -/
structure Lib where
  Sprintf : String → List Value → String
  hierrError : String → Value → String

/-- The Go type assertion `err.(hierr.Error)`. -/
def GoError.isHierarchical : GoError → Bool
  | .hier _ _ => true
  | .plain _ _ _ => false

/-- The test `arg != nil && reflect.TypeOf(arg).Kind() == reflect.String` of
`fmt.Sprint`. -/
def Value.isStringKind : Value → Bool
  | .str _ => true
  | .other _ k => k
  | .error (.plain _ _ k) => k
  | _ => false

/-- The method `Error()` of an error value. -/
def GoError.Error (L : Lib) : GoError → String
  | .plain text _ _ => text
  | .hier m n => L.hierrError m n

/-- The text `fmt` prints for an error operand under `%v`: what the error's own
`Format` method writes when it implements `fmt.Formatter`, otherwise the result
of `Error()`; `hierr.Error` has no `Format` method. -/
def GoError.fmtText (L : Lib) : GoError → String
  | .plain _ printed _ => printed
  | .hier m n => L.hierrError m n

/-! ## Package `strings` -/

/-- Go `strings.Repeat(s, count)`. -/
def Repeat (s : String) (count : Nat) : String :=
  ⟨(List.replicate count s.data).flatten⟩

/-- Go `strings.HasSuffix(s, suffix)`. -/
def HasSuffix (s suffix : String) : Bool :=
  suffix.data.isSuffixOf s.data

/-- Go `strings.TrimSuffix(s, suffix)`: `s[:len(s)-len(suffix)]` when `s` ends
with `suffix`, otherwise `s`. -/
def TrimSuffix (s suffix : String) : String :=
  if HasSuffix s suffix then ⟨s.data.take (s.data.length - suffix.data.length)⟩ else s

/-- Go `strings.Join(elems, sep)`. -/
def Join : List String → String → String
  | [], _ => ""
  | [a], _ => a
  | a :: b :: rest, sep => a ++ sep ++ Join (b :: rest) sep

/-- The replacement loop of `strings.Replace(s, old, new, -1)` for a non-empty
`old`: scan left to right, replace each non-overlapping occurrence.  The
counter bounds the number of scan steps; the length of the text suffices. -/
def replaceAll (old new : List Char) : Nat → List Char → List Char
  | 0, s => s
  | fuel + 1, s =>
    if old.isPrefixOf s then new ++ replaceAll old new fuel (s.drop old.length)
    else
      match s with
      | [] => []
      | c :: rest => c :: replaceAll old new fuel rest

/-- The case of an empty `old` in `strings.Replace`: `new` is inserted at the
beginning and after every character. -/
def insertAfterEach (new : List Char) : List Char → List Char
  | [] => []
  | c :: rest => c :: (new ++ insertAfterEach new rest)

/-- Go `strings.Replace(s, old, new, -1)`. -/
def Replace (s old new : String) : String :=
  if old.data = [] then ⟨new.data ++ insertAfterEach new.data s.data⟩
  else ⟨replaceAll old.data new.data s.data.length s.data⟩

/-! ## Package `fmt` -/

mutual
/-- What `fmt` prints for one operand under the verb `%v`: `<nil>` for the nil
interface, the text itself for a string, the text `fmt` prints for an error
(`GoError.fmtText`), and the bracketed, space-separated elements for a slice. -/
def printArg (L : Lib) : Value → String
  | .nil => "<nil>"
  | .str s => s
  | .other text _ => text
  | .error e => e.fmtText L
  | .parts ps => "[" ++ printElems L ps ++ "]"
/-- The elements of a slice as `fmt` prints them under `%v`. -/
def printElems (L : Lib) : List Value → String
  | [] => ""
  | [v] => printArg L v
  | v :: w :: rest => printArg L v ++ " " ++ printElems L (w :: rest)
end

/-- The loop of `fmt.Sprint`: a space is added between two operands when
neither is a string. -/
def doPrint (L : Lib) : Nat → Bool → List Value → String
  | _, _, [] => ""
  | argNum, prevString, arg :: rest =>
    let isString := arg.isStringKind
    (if 0 < argNum && !isString && !prevString then " " else "")
      ++ printArg L arg ++ doPrint L (argNum + 1) isString rest

/-- Go `fmt.Sprint(a...)`. -/
def Sprint (L : Lib) (a : List Value) : String :=
  doPrint L 0 false a

/-! ## Configuration types -/

/-- Modelled from the spec: the type `verbosity` and its constants are declared
outside `log.go`; an integer type with the ordered constants quiet, normal,
debug, trace, quiet lowest. -/
abbrev verbosity := Int

/-- Modelled from the spec: lowest verbosity. -/
def verbosityQuiet : verbosity := 0
/-- Modelled from the spec: the default verbosity, above quiet. -/
def verbosityNormal : verbosity := 1
/-- Modelled from the spec: above normal. -/
def verbosityDebug : verbosity := 2
/-- Modelled from the spec: the highest verbosity. -/
def verbosityTrace : verbosity := 3

/-- Modelled from the spec: the type `outputFormat` and its constants are
declared outside `log.go`; an integer type with the constants text and
structured (JSON). -/
abbrev outputFormat := Int

/-- Modelled from the spec: plain text output. -/
def outputFormatText : outputFormat := 0
/-- Modelled from the spec: structured output. -/
def outputFormatJSON : outputFormat := 1

/-- The severity levels of the logging engine (`lorg.Level`). -/
inductive Level where
  | Fatal | Error | Warning | Info | Debug | Trace
  deriving DecidableEq, Repr

/-- The logging engine as far as the facade configures it here: the minimum
severity set by `SetLevel`. -/
structure Log where
  level : Level
  deriving DecidableEq, Repr

/-- Engine call `logger.SetLevel(level)`. -/
def Log.SetLevel (_logger : Log) (level : Level) : Log :=
  { level := level }

/-! ## `log.go`: configuration and serialization -/

/-- Go `setLoggerVerbosity(level, logger)`. -/
def setLoggerVerbosity (level : verbosity) (logger : Log) : Log :=
  let logger := logger.SetLevel Level.Warning
  if level ≥ verbosityTrace then logger.SetLevel Level.Trace
  else if level ≥ verbosityDebug then logger.SetLevel Level.Debug
  else if level ≥ verbosityNormal then logger.SetLevel Level.Info
  else logger

mutual
/-- Go `serializeError(err)`, reading the process-wide `format`. -/
def serializeError (L : Lib) (format : outputFormat) : GoError → String
  | .plain text printed k =>
    if format = outputFormatText then Sprint L [Value.error (.plain text printed k)]
    else (GoError.plain text printed k).Error L
  | .hier Message Nested =>
    if format = outputFormatText then Sprint L [Value.error (.hier Message Nested)]
    else Message ++ ": " ++ serializeNested L format Nested
/-- The type switch on `hierarchicalError.Nested` inside `serializeError`; the
value kept when no case applies is `fmt.Sprint(hierarchicalError.Nested)`. -/
def serializeNested (L : Lib) (format : outputFormat) : Value → String
  | .error nested => serializeError L format nested
  | .parts nested => Join (serializeErrorParts L format nested) "; "
  | Nested => Sprint L [Nested]
/-- The loop over the nested parts inside `serializeError`, which collects
`serializeErrorParts`; the value kept when no case applies is
`fmt.Sprint(nestedPart)`. -/
def serializeErrorParts (L : Lib) (format : outputFormat) : List Value → List String
  | [] => []
  | .error part :: rest => serializeError L format part :: serializeErrorParts L format rest
  | .str part :: rest => part :: serializeErrorParts L format rest
  | nestedPart :: rest => Sprint L [nestedPart] :: serializeErrorParts L format rest
end

/-- Go `serializeErrors(args)`: the loop `for i, arg := range args` overwrites
`args[i]` with the serialized string when `arg` is an error. -/
def serializeErrors (L : Lib) (format : outputFormat) (args : List Value) : List Value :=
  (List.range args.length).foldl
    (fun (args : List Value) (i : Nat) =>
      match args[i]? with
      | some (.error err) => args.set i (Value.str (serializeError L format err))
      | _ => args)
    args

/-- Go `wrapLines(format, values...)`, reading the process-wide
`loggerFormattingBasicLength`. -/
def wrapLines (L : Lib) (loggerFormattingBasicLength : Nat) (format : String)
    (values : List Value) : String :=
  let contents := L.Sprintf format values
  let contents := TrimSuffix contents "\n"
  let contents := Replace contents "\n" ("\n" ++ Repeat " " loggerFormattingBasicLength)
  contents

/-- Library call `hierr.Errorf(nested, message, args...)`: a `hierr.Error` with
the formatted message and the given nested value. -/
def hierrErrorf (L : Lib) (nested : Value) (message : String) (args : List Value) : GoError :=
  .hier (L.Sprintf message args) nested

/-! ## Process state and effects -/

/-- The status bar: the status it holds and the results of its coming `Render`
calls (`none` for success, an error otherwise; success once the list is used
up), which stand for the outcome of writing to the error stream. -/
structure StatusBar where
  status : Value
  renderResults : List (Option GoError)

/-- Status bar call `statusbar.SetStatus(status)`. -/
def StatusBar.SetStatus (bar : StatusBar) (status : Value) : StatusBar :=
  { bar with status := status }

/-- Status bar call `statusbar.Render(os.Stderr)`: the result and the bar
afterwards. -/
def StatusBar.Render (bar : StatusBar) : Option GoError × StatusBar :=
  match bar.renderResults with
  | [] => (none, bar)
  | r :: rest => (r, { bar with renderResults := rest })

/-- An externally visible effect of the facade: a message handed to the logging
engine at a severity, a render of the status bar (with the status shown), a
clear of the status bar, or the termination of the process. -/
inductive Event where
  | log (level : Level) (message : String)
  | render (status : Value)
  | clear
  | exit (code : Int)

/-- The process-wide variables `log.go` works on, and the effects so far. -/
structure State where
  format : outputFormat
  verbose : verbosity
  logger : Log
  statusbar : Option StatusBar
  loggerFormattingBasicLength : Nat
  events : List Event

/-- Record an effect. -/
def State.emit (S : State) (e : Event) : State :=
  { S with events := S.events ++ [e] }

/-- Engine calls `logger.Tracef("%s", message)` ... `logger.Fatalf("%s", message)`:
the message is handed to the engine at the given severity. -/
def State.logf (S : State) (level : Level) (message : String) : State :=
  S.emit (.log level message)

/-- Modelled from the spec: `exit` is declared outside `log.go`; a single
operation that terminates the process with the given exit code. -/
def exit (code : Int) (S : State) : State :=
  S.emit (.exit code)

/-! ## `log.go`: emission and status bar -/

/-- Go `errorf(format, args...)`. -/
def errorf (L : Lib) (S : State) (format : String) (args : List Value) : State :=
  let args := serializeErrors L S.format args
  S.logf Level.Error (wrapLines L S.loggerFormattingBasicLength format args)

/-- Go `shouldDrawStatus()`. -/
def shouldDrawStatus (S : State) : Bool :=
  if S.statusbar.isNone then false
  else if S.format ≠ outputFormatText then false
  else if S.verbose ≤ verbosityQuiet then false
  else true

/-- Go `drawStatus()`. -/
def drawStatus (L : Lib) (S : State) : State :=
  if !shouldDrawStatus S then S
  else
    match S.statusbar with
    | none => S
    | some bar =>
      let result := bar.Render
      let S := { S.emit (.render bar.status) with statusbar := some result.2 }
      match result.1 with
      | some err =>
        errorf L S "%s" [Value.error (hierrErrorf L (Value.error err) "can't draw status bar" [])]
      | none => S

/-- Go `clearStatus()`. -/
def clearStatus (S : State) : State :=
  if !shouldDrawStatus S then S
  else S.emit .clear

/-- Go `setStatus(status)`. -/
def setStatus (L : Lib) (S : State) (status : Value) : State :=
  match S.statusbar with
  | none => S
  | some bar => drawStatus L { S with statusbar := some (bar.SetStatus status) }

/-- Go `tracef(format, args...)`. -/
def tracef (L : Lib) (S : State) (format : String) (args : List Value) : State :=
  let args := serializeErrors L S.format args
  let S := S.logf Level.Trace (wrapLines L S.loggerFormattingBasicLength format args)
  drawStatus L S

/-- Go `traceln(args...)`. -/
def traceln (L : Lib) (S : State) (args : List Value) : State :=
  tracef L S "%s" [Value.str (Sprint L (serializeErrors L S.format args))]

/-- Go `debugf(format, args...)`. -/
def debugf (L : Lib) (S : State) (format : String) (args : List Value) : State :=
  let args := serializeErrors L S.format args
  let S := S.logf Level.Debug (wrapLines L S.loggerFormattingBasicLength format args)
  drawStatus L S

/-- Go `debugln(args...)`. -/
def debugln (L : Lib) (S : State) (args : List Value) : State :=
  debugf L S "%s" [Value.str (Sprint L (serializeErrors L S.format args))]

/-- Go `infof(format, args...)`. -/
def infof (L : Lib) (S : State) (format : String) (args : List Value) : State :=
  let args := serializeErrors L S.format args
  let S := S.logf Level.Info (wrapLines L S.loggerFormattingBasicLength format args)
  drawStatus L S

/-- Go `infoln(args...)`. -/
def infoln (L : Lib) (S : State) (args : List Value) : State :=
  infof L S "%s" [Value.str (Sprint L (serializeErrors L S.format args))]

/-- Go `warningf(format, args...)`. -/
def warningf (L : Lib) (S : State) (format : String) (args : List Value) : State :=
  let args := serializeErrors L S.format args
  if S.verbose ≤ verbosityQuiet then S
  else
    let S := S.logf Level.Warning (wrapLines L S.loggerFormattingBasicLength format args)
    drawStatus L S

/-- Go `warningln(args...)`. -/
def warningln (L : Lib) (S : State) (args : List Value) : State :=
  warningf L S "%s" [Value.str (Sprint L (serializeErrors L S.format args))]

/-- Go `errorln(args...)`. -/
def errorln (L : Lib) (S : State) (args : List Value) : State :=
  errorf L S "%s" [Value.str (Sprint L (serializeErrors L S.format args))]

/-- Go `fatalf(format, args...)`. -/
def fatalf (L : Lib) (S : State) (format : String) (args : List Value) : State :=
  let args := serializeErrors L S.format args
  let S := clearStatus S
  let S := S.logf Level.Fatal (wrapLines L S.loggerFormattingBasicLength format args)
  exit 1 S

/-- Go `fatalln(args...)`. -/
def fatalln (L : Lib) (S : State) (args : List Value) : State :=
  fatalf L S "%s" [Value.str (Sprint L (serializeErrors L S.format args))]

/-! ## Evaluated examples: a stand-in library -/

/-- A small formatter standing for `fmt.Sprintf` in evaluated examples: it
substitutes the operands for `%s` and `%v` in order and copies everything else. -/
def basicSprintf (pr : Value → String) : List Char → List Value → List Char
  | [], _ => []
  | [c], _ => [c]
  | c :: d :: rest, args =>
    if c = '%' ∧ (d = 's' ∨ d = 'v') then
      match args with
      | [] => basicSprintf pr rest []
      | a :: more => (pr a).data ++ basicSprintf pr rest more
    else c :: basicSprintf pr (d :: rest) args

/-- The text the stand-in library prints for a value inside a rendered tree. -/
def basicText : Value → String
  | .str s => s
  | .other text _ => text
  | .error (.plain _ printed _) => printed
  | .error (.hier m _) => m
  | .nil => "<nil>"
  | .parts _ => "[...]"

/-- A stand-in for the external libraries, used to evaluate examples: the small
formatter above, and a hierarchical error rendered as its message followed by
its nested value on a branch line. -/
def exampleLib : Lib where
  Sprintf := fun format args => ⟨basicSprintf basicText format.data args⟩
  hierrError := fun m n =>
    match n with
    | .nil => m
    | n => m ++ "\n└─ " ++ basicText n

/-! ## Notions used to state the properties -/

/-- How one nested part is rendered: an error by its own serialization, a plain
string by its literal text, anything else by its default text. -/
def renderPart (L : Lib) (format : outputFormat) : Value → String
  | .error e => serializeError L format e
  | .str s => s
  | v => printArg L v

/-- How one argument is rewritten: an error by the string of its
serialization, anything else is kept. -/
def rewriteArg (L : Lib) (format : outputFormat) : Value → Value
  | .error e => .str (serializeError L format e)
  | v => v

/-- The lines of a text: the pieces between its line breaks. -/
def lines : List Char → List (List Char)
  | [] => [[]]
  | c :: rest =>
    if c = '\n' then [] :: lines rest
    else (c :: (lines rest).headD []) :: (lines rest).tail

/-- Lines put together again, with one line break between two lines. -/
def unlines : List (List Char) → List Char
  | [] => []
  | [l] => l
  | l :: m :: ls => l ++ '\n' :: unlines (m :: ls)

/-- Indentation of continuation lines: the first line is kept, every further
line is prefixed by N spaces. -/
def indentContinuation (N : Nat) : List (List Char) → List (List Char)
  | [] => []
  | l :: ls => l :: ls.map (fun m => List.replicate N ' ' ++ m)

/-- Every occurrence of the character `c0` replaced by `new`. -/
def expand (c0 : Char) (new : List Char) : List Char → List Char
  | [] => []
  | c :: rest => if c = c0 then new ++ expand c0 new rest else c :: expand c0 new rest

/-- The exit codes among the recorded effects, in order. -/
def exitCodes : List Event → List Int
  | [] => []
  | .exit code :: rest => code :: exitCodes rest
  | _ :: rest => exitCodes rest

/-- The status bar operations (renders and clears) among the recorded effects. -/
def statusEffects : List Event → List Event
  | [] => []
  | .render status :: rest => .render status :: statusEffects rest
  | .clear :: rest => .clear :: statusEffects rest
  | _ :: rest => statusEffects rest

mutual
/-- The number of nodes of an error value. -/
def GoError.size : GoError → Nat
  | .plain _ _ _ => 1
  | .hier _ n => 1 + n.size
/-- The number of nodes of a value. -/
def Value.size : Value → Nat
  | .error e => 1 + e.size
  | .parts ps => 1 + Value.sizeList ps
  | _ => 1
/-- The number of nodes of a list of values, the list cells included. -/
def Value.sizeList : List Value → Nat
  | [] => 1
  | v :: rest => 1 + v.size + Value.sizeList rest
end

mutual
/-- Go `serializeError(err)` run with a step budget: every call of the
function and every step of its type switch and of its loop takes one unit, and
`none` is returned when the budget runs out. -/
def serializeErrorFuel (L : Lib) (format : outputFormat) : Nat → GoError → Option String
  | 0, _ => none
  | _ + 1, .plain text printed k =>
    if format = outputFormatText then some (Sprint L [Value.error (.plain text printed k)])
    else some ((GoError.plain text printed k).Error L)
  | fuel + 1, .hier Message Nested =>
    if format = outputFormatText then some (Sprint L [Value.error (.hier Message Nested)])
    else (serializeNestedFuel L format fuel Nested).map (fun s => Message ++ ": " ++ s)
/-- The type switch on `hierarchicalError.Nested`, run with a step budget. -/
def serializeNestedFuel (L : Lib) (format : outputFormat) : Nat → Value → Option String
  | 0, _ => none
  | fuel + 1, .error nested => serializeErrorFuel L format fuel nested
  | fuel + 1, .parts nested =>
    (serializeErrorPartsFuel L format fuel nested).map (fun ps => Join ps "; ")
  | _ + 1, Nested => some (Sprint L [Nested])
/-- The loop over the nested parts, run with a step budget. -/
def serializeErrorPartsFuel (L : Lib) (format : outputFormat) :
    Nat → List Value → Option (List String)
  | 0, _ => none
  | _ + 1, [] => some []
  | fuel + 1, .error part :: rest =>
    match serializeErrorFuel L format fuel part, serializeErrorPartsFuel L format fuel rest with
    | some s, some ss => some (s :: ss)
    | _, _ => none
  | fuel + 1, .str part :: rest =>
    (serializeErrorPartsFuel L format fuel rest).map (fun ss => part :: ss)
  | fuel + 1, nestedPart :: rest =>
    (serializeErrorPartsFuel L format fuel rest).map (fun ss => Sprint L [nestedPart] :: ss)
end

/-- Whether a text is free of line breaks. -/
def hasNoBreak (s : String) : Bool :=
  decide ('\n' ∉ s.data)

mutual
/-- Whether no message, no plain-string part and no leaf default text of an
error tree contains a line break; a leaf is a value into which serialization
does not descend. -/
def GoError.singleLine (L : Lib) : GoError → Bool
  | .plain text printed k => hasNoBreak ((GoError.plain text printed k).Error L)
  | .hier Message Nested => hasNoBreak Message && Value.singleLineNested L Nested
/-- The same for the nested value of a hierarchical error. -/
def Value.singleLineNested (L : Lib) : Value → Bool
  | .error nested => nested.singleLine L
  | .parts nested => Value.singleLineParts L nested
  | Nested => hasNoBreak (printArg L Nested)
/-- The same for a list of nested parts. -/
def Value.singleLineParts (L : Lib) : List Value → Bool
  | [] => true
  | .error part :: rest => part.singleLine L && Value.singleLineParts L rest
  | .str part :: rest => hasNoBreak part && Value.singleLineParts L rest
  | nestedPart :: rest => hasNoBreak (printArg L nestedPart) && Value.singleLineParts L rest
end

/-! ## Basic facts about `strings` and `fmt` -/

theorem Sprint_single (L : Lib) (v : Value) : Sprint L [v] = printArg L v := by
  simp [Sprint, doPrint]

theorem printArg_error (L : Lib) (e : GoError) : printArg L (.error e) = e.fmtText L := by
  simp [printArg]

theorem serializeErrorParts_eq_map (L : Lib) (format : outputFormat) (ps : List Value) :
    serializeErrorParts L format ps = ps.map (renderPart L format) := by
  induction ps with
  | nil => simp [serializeErrorParts]
  | cons p rest ih =>
    cases p <;> simp [serializeErrorParts, renderPart, ih, Sprint_single]

/-! ## Serialization of errors -/

/-- C1: under a non-text output format, a hierarchical error with message M
whose nested value is a list of parts (of any length) serializes to M, then
": ", then the renderings of the parts joined with "; " in list order, where an
error part renders as its own serialization, a string part as its literal text
and any other part as its default text; with parts "a", an error serializing to
"b", and "c" under message "M" the result is exactly "M: a; b; c". -/
theorem serializeError_parts (L : Lib) (format : outputFormat)
    (hfmt : format ≠ outputFormatText) (M : String) (ps : List Value) :
    serializeError L format (.hier M (.parts ps))
        = M ++ ": " ++ Join (ps.map (renderPart L format)) "; "
      ∧ (∀ e : GoError, serializeError L format e = "b" →
          serializeError L format (.hier "M" (.parts [.str "a", .error e, .str "c"]))
            = "M: a; b; c") := by
  have key : ∀ (m : String) (qs : List Value),
      serializeError L format (.hier m (.parts qs))
        = m ++ ": " ++ Join (qs.map (renderPart L format)) "; " := by
    intro m qs
    simp [serializeError, serializeNested, hfmt, serializeErrorParts_eq_map]
  refine ⟨key M ps, ?_⟩
  intro e he
  rw [key]
  simp only [List.map, renderPart, he]
  decide

/-- Witness for C1: structured output, message "M", parts "a", a plain error
with text "b", and "c". -/
theorem serializeError_parts_witness :
    outputFormatJSON ≠ outputFormatText
      ∧ serializeError exampleLib outputFormatJSON
          (.hier "M" (.parts [.str "a", .error (.plain "b" "b" false), .str "c"]))
        = "M" ++ ": " ++ Join ([Value.str "a", .error (.plain "b" "b" false), .str "c"].map
            (renderPart exampleLib outputFormatJSON)) "; " :=
  ⟨by decide,
   (serializeError_parts exampleLib outputFormatJSON (by decide) "M"
      [.str "a", .error (.plain "b" "b" false), .str "c"]).1⟩

/-- C2: under a non-text output format, a hierarchical error with message M
whose nested value is a single error e serializes to M, then ": ", then the
serialization of e; when e is a non-hierarchical error whose text, the result
of `Error()`, is E the result is exactly M, ": ", E. -/
theorem serializeError_nested_error (L : Lib) (format : outputFormat)
    (hfmt : format ≠ outputFormatText) (M : String) (e : GoError) :
    serializeError L format (.hier M (.error e)) = M ++ ": " ++ serializeError L format e
      ∧ (e.isHierarchical = false →
          serializeError L format (.hier M (.error e)) = M ++ ": " ++ e.Error L) := by
  have key : serializeError L format (.hier M (.error e))
      = M ++ ": " ++ serializeError L format e := by
    simp [serializeError, serializeNested, hfmt]
  refine ⟨key, ?_⟩
  intro hplain
  rw [key]
  cases e with
  | plain text printed k => simp [serializeError, hfmt, GoError.Error]
  | hier m n => simp [GoError.isHierarchical] at hplain

/-- Witness for C2: structured output, message "M", and a nested plain error
whose `Error()` text is "E" (and which `fmt` would print as "F"). -/
theorem serializeError_nested_error_witness :
    outputFormatJSON ≠ outputFormatText
      ∧ (GoError.plain "E" "F" false).isHierarchical = false
      ∧ serializeError exampleLib outputFormatJSON (.hier "M" (.error (.plain "E" "F" false)))
        = "M" ++ ": " ++ (GoError.plain "E" "F" false).Error exampleLib :=
  ⟨by decide, by decide,
   (serializeError_nested_error exampleLib outputFormatJSON (by decide) "M"
      (.plain "E" "F" false)).2 (by decide)⟩

/-- Counterexample for C3 as stated: for the non-hierarchical error whose
`Error()` returns "E" and which `fmt` prints as "F" (it implements
`fmt.Formatter`), serialization under structured output gives "E", while the
default text `fmt.Sprint` prints and the result under text output are "F". -/
theorem serializeError_plain_counterexample :
    outputFormatJSON ≠ outputFormatText
      ∧ (GoError.plain "E" "F" false).isHierarchical = false
      ∧ serializeError exampleLib outputFormatJSON (.plain "E" "F" false) = "E"
      ∧ Sprint exampleLib [Value.error (.plain "E" "F" false)] = "F"
      ∧ serializeError exampleLib outputFormatText (.plain "E" "F" false) = "F"
      ∧ serializeError exampleLib outputFormatJSON (.plain "E" "F" false)
          ≠ Sprint exampleLib [Value.error (.plain "E" "F" false)]
      ∧ serializeError exampleLib outputFormatJSON (.plain "E" "F" false)
          ≠ serializeError exampleLib outputFormatText (.plain "E" "F" false) := by
  refine ⟨by decide, by decide, by decide, by decide, by decide, by decide, by decide⟩

/-- C3 (amended): for a non-hierarchical error, serialization under a non-text
output format returns exactly the result of `Error()`, and serialization under
the text output format returns the text `fmt.Sprint` prints for the error; the
two are the same string, the default text of the error, whenever `fmt` prints
the error as the result of `Error()`. -/
theorem serializeError_plain (L : Lib) (format : outputFormat)
    (hfmt : format ≠ outputFormatText) (e : GoError) (hplain : e.isHierarchical = false) :
    serializeError L format e = e.Error L
      ∧ serializeError L outputFormatText e = Sprint L [Value.error e]
      ∧ (e.fmtText L = e.Error L →
          serializeError L format e = Sprint L [Value.error e]
            ∧ serializeError L format e = serializeError L outputFormatText e) := by
  cases e with
  | plain text printed k =>
    refine ⟨?_, ?_, ?_⟩
    · simp [serializeError, hfmt]
    · simp [serializeError]
    · intro hsame
      simp only [GoError.fmtText, GoError.Error] at hsame
      simp [serializeError, hfmt, Sprint_single, printArg, GoError.Error, GoError.fmtText, hsame]
  | hier m n => simp [GoError.isHierarchical] at hplain

/-- Witness for C3 (amended): structured output and a plain error that `fmt`
prints as its `Error()` text "boom". -/
theorem serializeError_plain_witness :
    outputFormatJSON ≠ outputFormatText
      ∧ (GoError.plain "boom" "boom" false).isHierarchical = false
      ∧ (GoError.plain "boom" "boom" false).fmtText exampleLib
          = (GoError.plain "boom" "boom" false).Error exampleLib
      ∧ serializeError exampleLib outputFormatJSON (.plain "boom" "boom" false)
          = serializeError exampleLib outputFormatText (.plain "boom" "boom" false) :=
  ⟨by decide, by decide, by decide,
   ((serializeError_plain exampleLib outputFormatJSON (by decide) (.plain "boom" "boom" false)
      (by decide)).2.2 (by decide)).2⟩

/-! ## Verbosity -/

/-- C4: for every verbosity v and every prior logger level, after
setLoggerVerbosity the minimum severity of the logger is warning when v is
below normal, info when v is at least normal and below debug, debug when v is
at least debug and below trace, and trace when v is at least trace. -/
theorem setLoggerVerbosity_level (v : verbosity) (logger : Log) :
    (v < verbosityNormal → (setLoggerVerbosity v logger).level = Level.Warning)
      ∧ (verbosityNormal ≤ v → v < verbosityDebug →
          (setLoggerVerbosity v logger).level = Level.Info)
      ∧ (verbosityDebug ≤ v → v < verbosityTrace →
          (setLoggerVerbosity v logger).level = Level.Debug)
      ∧ (verbosityTrace ≤ v → (setLoggerVerbosity v logger).level = Level.Trace) := by
  simp only [setLoggerVerbosity, Log.SetLevel, verbosityNormal, verbosityDebug, verbosityTrace]
  refine ⟨?_, ?_, ?_, ?_⟩
  · intro h
    split_ifs <;> first | rfl | (unfold verbosity at *; omega)
  · intro h1 h2
    split_ifs <;> first | rfl | (unfold verbosity at *; omega)
  · intro h1 h2
    split_ifs <;> first | rfl | (unfold verbosity at *; omega)
  · intro h
    split_ifs <;> rfl

/-- Witness for C4: the four verbosity constants, starting from a logger at
trace level. -/
theorem setLoggerVerbosity_level_witness :
    (setLoggerVerbosity verbosityQuiet ⟨Level.Trace⟩).level = Level.Warning
      ∧ (setLoggerVerbosity verbosityNormal ⟨Level.Trace⟩).level = Level.Info
      ∧ (setLoggerVerbosity verbosityDebug ⟨Level.Trace⟩).level = Level.Debug
      ∧ (setLoggerVerbosity verbosityTrace ⟨Level.Trace⟩).level = Level.Trace :=
  ⟨(setLoggerVerbosity_level verbosityQuiet ⟨Level.Trace⟩).1 (by decide),
   (setLoggerVerbosity_level verbosityNormal ⟨Level.Trace⟩).2.1 (by decide) (by decide),
   (setLoggerVerbosity_level verbosityDebug ⟨Level.Trace⟩).2.2.1 (by decide) (by decide),
   (setLoggerVerbosity_level verbosityTrace ⟨Level.Trace⟩).2.2.2 (by decide)⟩

/-! ## Line wrapping -/

theorem lines_ne_nil (s : List Char) : lines s ≠ [] := by
  cases s with
  | nil => simp [lines]
  | cons c rest =>
    simp only [lines]
    split_ifs <;> simp

theorem unlines_cons (l : List Char) (ls : List (List Char)) :
    unlines (l :: ls) = l ++ (ls.map (fun m => '\n' :: m)).flatten := by
  induction ls generalizing l with
  | nil => simp [unlines]
  | cons m ls ih => simp [unlines, ih]

/-- The lines of a text, joined by line breaks, give the text back. -/
theorem unlines_lines (s : List Char) : unlines (lines s) = s := by
  induction s with
  | nil => simp [lines, unlines]
  | cons c rest ih =>
    obtain ⟨l, ls, hl⟩ := List.exists_cons_of_ne_nil (lines_ne_nil rest)
    rw [hl, unlines_cons] at ih
    simp only [lines, hl]
    split_ifs with hc
    · rw [unlines_cons]
      simp only [List.map_cons, List.flatten_cons, List.nil_append, List.cons_append]
      rw [ih, hc]
    · rw [unlines_cons]
      simp only [List.headD_cons, List.tail_cons, List.cons_append]
      rw [ih]

/-- No line of a text contains a line break. -/
theorem lines_no_break (s : List Char) : ∀ l ∈ lines s, '\n' ∉ l := by
  induction s with
  | nil => simp [lines]
  | cons c rest ih =>
    obtain ⟨l, ls, hl⟩ := List.exists_cons_of_ne_nil (lines_ne_nil rest)
    rw [hl] at ih
    simp only [lines, hl]
    split_ifs with hc
    · intro m hm
      rcases List.mem_cons.mp hm with h | h
      · simp [h]
      · exact ih m h
    · intro m hm
      simp only [List.headD_cons, List.tail_cons] at hm
      rcases List.mem_cons.mp hm with h | h
      · subst h
        have := ih l (List.mem_cons_self _ _)
        simp only [List.mem_cons, not_or]
        exact ⟨fun h => hc h.symm, this⟩
      · exact ih m (List.mem_cons_of_mem _ h)

theorem replaceAll_single (c0 : Char) (new : List Char) (s : List Char) :
    ∀ fuel, s.length ≤ fuel → replaceAll [c0] new fuel s = expand c0 new s := by
  induction s with
  | nil =>
    intro fuel _
    cases fuel <;> simp [replaceAll, expand]
  | cons c rest ih =>
    intro fuel hfuel
    cases fuel with
    | zero => simp at hfuel
    | succ f =>
      have hf : rest.length ≤ f := by simpa using hfuel
      by_cases hc : c = c0
      · subst hc
        simp [replaceAll, expand, ih f hf]
      · have hc2 : ¬ c0 = c := fun h => hc h.symm
        simp [replaceAll, expand, List.isPrefixOf, hc, hc2, ih f hf]

theorem expand_eq_unlines (N : Nat) (s : List Char) :
    expand '\n' ('\n' :: List.replicate N ' ') s = unlines (indentContinuation N (lines s)) := by
  induction s with
  | nil => simp [expand, lines, indentContinuation, unlines]
  | cons c rest ih =>
    obtain ⟨l, ls, hl⟩ := List.exists_cons_of_ne_nil (lines_ne_nil rest)
    rw [hl] at ih
    simp only [indentContinuation, unlines_cons] at ih
    simp only [expand, lines, hl]
    split_ifs with hc
    · simp only [indentContinuation, unlines_cons, ih]
      simp
    · simp only [List.headD_cons, List.tail_cons, indentContinuation, unlines_cons, ih]
      simp

theorem Repeat_space (N : Nat) : (Repeat " " N).data = List.replicate N ' ' := by
  simp [Repeat]

theorem Replace_newline (s : String) (N : Nat) :
    (Replace s "\n" ("\n" ++ Repeat " " N)).data
      = unlines (indentContinuation N (lines s.data)) := by
  have hold : ("\n" : String).data = ['\n'] := rfl
  have hnew : ("\n" ++ Repeat " " N).data = '\n' :: List.replicate N ' ' := by
    rw [String.data_append, Repeat_space, hold]
    rfl
  unfold Replace
  rw [hold, if_neg (by simp)]
  simp only [hnew]
  rw [replaceAll_single _ _ _ _ (le_refl _), expand_eq_unlines]

theorem TrimSuffix_newline_of_ends (s : String) (t : List Char) (h : s.data = t ++ ['\n']) :
    (TrimSuffix s "\n").data = t := by
  have hold : ("\n" : String).data = ['\n'] := rfl
  have hsuf : HasSuffix s "\n" = true := by
    simp [HasSuffix, hold, h]
  simp [TrimSuffix, hsuf, hold, h]

theorem TrimSuffix_newline_of_not_ends (s : String) (h : ∀ t, s.data ≠ t ++ ['\n']) :
    TrimSuffix s "\n" = s := by
  have hold : ("\n" : String).data = ['\n'] := rfl
  have hsuf : HasSuffix s "\n" = false := by
    simp only [HasSuffix, hold]
    rw [Bool.eq_false_iff]
    intro hh
    rw [List.isSuffixOf_iff_suffix] at hh
    obtain ⟨t, ht⟩ := hh
    exact h t ht.symm
  simp [TrimSuffix, hsuf]

theorem lines_of_no_break (a : List Char) (ha : '\n' ∉ a) : lines a = [a] := by
  induction a with
  | nil => simp [lines]
  | cons c rest ih =>
    simp only [List.mem_cons, not_or] at ha
    have hc : ¬ c = '\n' := fun h => ha.1 h.symm
    simp [lines, hc, ih ha.2]

theorem lines_two (a b : List Char) (ha : '\n' ∉ a) (hb : '\n' ∉ b) :
    lines (a ++ '\n' :: b) = [a, b] := by
  induction a with
  | nil => simp [lines, lines_of_no_break b hb]
  | cons c rest ih =>
    simp only [List.mem_cons, not_or] at ha
    have hc : ¬ c = '\n' := fun h => ha.1 h.symm
    simp [lines, hc, ih ha.2]

/-- C5: for every rendered text and every formatting basic length N,
wrapLines returns the text with one trailing line break removed (if present)
and with N spaces inserted after every remaining line break: the first line is
unchanged and every continuation line is the original line prefixed by N
spaces; a two-line text a, line break, b (with or without one trailing line
break) becomes a, line break, N spaces, b, with no trailing line break. -/
theorem wrapLines_indents (L : Lib) (N : Nat) (format : String) (values : List Value) :
    (∀ t : List Char, (L.Sprintf format values).data = t ++ ['\n'] →
        (wrapLines L N format values).data = unlines (indentContinuation N (lines t)))
      ∧ ((∀ t : List Char, (L.Sprintf format values).data ≠ t ++ ['\n']) →
        (wrapLines L N format values).data
          = unlines (indentContinuation N (lines (L.Sprintf format values).data)))
      ∧ (∀ a b : String, '\n' ∉ a.data → '\n' ∉ b.data →
          ((L.Sprintf format values = a ++ "\n" ++ b ∧ b ≠ "")
            ∨ L.Sprintf format values = a ++ "\n" ++ b ++ "\n") →
          wrapLines L N format values = a ++ "\n" ++ Repeat " " N ++ b) := by
  have hold : ("\n" : String).data = ['\n'] := rfl
  have hends : ∀ t : List Char, (L.Sprintf format values).data = t ++ ['\n'] →
      (wrapLines L N format values).data = unlines (indentContinuation N (lines t)) := by
    intro t ht
    simp only [wrapLines]
    rw [Replace_newline, TrimSuffix_newline_of_ends _ t ht]
  have hnot : (∀ t : List Char, (L.Sprintf format values).data ≠ t ++ ['\n']) →
      (wrapLines L N format values).data
        = unlines (indentContinuation N (lines (L.Sprintf format values).data)) := by
    intro ht
    simp only [wrapLines]
    rw [Replace_newline, TrimSuffix_newline_of_not_ends _ ht]
  refine ⟨hends, hnot, ?_⟩
  intro a b ha hb hcase
  have hres : (a ++ "\n" ++ Repeat " " N ++ b).data
      = unlines (indentContinuation N [a.data, b.data]) := by
    simp [String.data_append, Repeat_space, hold, indentContinuation, unlines]
  apply String.ext
  rw [hres, ← lines_two a.data b.data ha hb]
  rcases hcase with ⟨h, hne⟩ | h
  · have hd : (L.Sprintf format values).data = a.data ++ '\n' :: b.data := by
      rw [h]
      simp [String.data_append, hold]
    have hbne : b.data ≠ [] := fun hb0 => hne (String.ext hb0)
    have hgoal := hnot (by
      intro t ht
      rw [hd] at ht
      have hlast := congrArg List.getLast? ht
      rw [show a.data ++ '\n' :: b.data = (a.data ++ ['\n']) ++ b.data by simp,
        List.getLast?_append_of_ne_nil _ hbne] at hlast
      simp at hlast
      exact hb (List.mem_of_getLast?_eq_some hlast))
    rw [hd] at hgoal
    exact hgoal
  · apply hends
    rw [h]
    simp [String.data_append, hold]
/-- Witness for C5: the text "a", line break, "b", line break, wrapped with
basic length 4. -/
theorem wrapLines_indents_witness :
    exampleLib.Sprintf "%s\n" [Value.str "a\nb"] = "a" ++ "\n" ++ "b" ++ "\n"
      ∧ wrapLines exampleLib 4 "%s\n" [Value.str "a\nb"] = "a" ++ "\n" ++ Repeat " " 4 ++ "b" :=
  ⟨by decide,
   (wrapLines_indents exampleLib 4 "%s\n" [Value.str "a\nb"]).2.2 "a" "b"
      (by decide) (by decide) (Or.inr (by decide))⟩

/-! ## Rewriting of arguments -/

theorem serializeErrors_loop (L : Lib) (format : outputFormat) (args : List Value) :
    ∀ k, k ≤ args.length →
      (List.range k).foldl
        (fun (args : List Value) (i : Nat) =>
          match args[i]? with
          | some (.error err) => args.set i (Value.str (serializeError L format err))
          | _ => args)
        args
      = (args.take k).map (rewriteArg L format) ++ args.drop k := by
  intro k
  induction k with
  | zero => simp
  | succ k ih =>
    intro hk
    have hlt : k < args.length := hk
    rw [List.range_succ, List.foldl_append, ih (Nat.le_of_lt hlt)]
    have hdrop : args.drop k = args[k] :: args.drop (k + 1) := List.drop_eq_getElem_cons hlt
    have htake : args.take (k + 1) = args.take k ++ [args[k]] := by
      rw [List.take_succ, List.getElem?_eq_getElem hlt]
      rfl
    have hlen : ((args.take k).map (rewriteArg L format)).length = k := by
      rw [List.length_map, List.length_take]
      omega
    rw [htake, hdrop, List.map_append, List.append_assoc]
    generalize (args.take k).map (rewriteArg L format) = A at hlen ⊢
    generalize args.drop (k + 1) = B
    generalize args[k] = a
    have hget : (A ++ a :: B)[k]? = some a := by
      rw [List.getElem?_append_right (by omega), hlen]
      simp
    simp only [List.foldl_cons, List.foldl_nil, hget, List.map_cons, List.map_nil,
      List.singleton_append]
    cases a with
    | error e =>
      simp only [rewriteArg]
      rw [List.set_append_right _ _ (by omega), hlen]
      simp
    | nil => rfl
    | str s0 => rfl
    | other t0 k0 => rfl
    | parts ps => rfl

theorem serializeErrors_eq_map (L : Lib) (format : outputFormat) (args : List Value) :
    serializeErrors L format args = args.map (rewriteArg L format) := by
  unfold serializeErrors
  rw [serializeErrors_loop L format args args.length (le_refl _)]
  simp

theorem serializeErrors_single_str (L : Lib) (format : outputFormat) (s : String) :
    serializeErrors L format [Value.str s] = [Value.str s] := by
  rw [serializeErrors_eq_map]
  rfl

/-- C9: for every argument list, serializeErrors returns a list of the same
length in which, at each position, an argument that is an error is replaced by
the string of its serialization under the current output format and every
other argument is kept unchanged at the same position. -/
theorem serializeErrors_positional (L : Lib) (format : outputFormat) (args : List Value) :
    (serializeErrors L format args).length = args.length
      ∧ ∀ (i : Nat) (v : Value), args[i]? = some v →
          (∀ e, v = Value.error e →
            (serializeErrors L format args)[i]? = some (Value.str (serializeError L format e)))
          ∧ ((∀ e, v ≠ Value.error e) → (serializeErrors L format args)[i]? = some v) := by
  rw [serializeErrors_eq_map]
  refine ⟨by simp, ?_⟩
  intro i v hv
  rw [List.getElem?_map, hv]
  constructor
  · intro e he
    subst he
    rfl
  · intro hne
    cases v with
    | error e => exact absurd rfl (hne e)
    | nil => rfl
    | str s0 => rfl
    | other t0 k0 => rfl
    | parts ps => rfl

/-- Witness for C9: a string, a hierarchical error and a nil argument under
structured output; position 1 holds the error. -/
theorem serializeErrors_positional_witness :
    [Value.str "a", Value.error (.hier "m" (.str "x")), Value.nil][1]?
        = some (Value.error (.hier "m" (.str "x")))
      ∧ (serializeErrors exampleLib outputFormatJSON
          [Value.str "a", Value.error (.hier "m" (.str "x")), Value.nil])[1]?
        = some (Value.str (serializeError exampleLib outputFormatJSON (.hier "m" (.str "x")))) :=
  ⟨rfl,
   ((serializeErrors_positional exampleLib outputFormatJSON
      [Value.str "a", Value.error (.hier "m" (.str "x")), Value.nil]).2 1 _ rfl).1 _ rfl⟩
/-! ## Emission and the status bar -/

theorem shouldDrawStatus_eq_true_iff (S : State) :
    shouldDrawStatus S = true
      ↔ S.statusbar.isSome = true ∧ S.format = outputFormatText ∧ verbosityQuiet < S.verbose := by
  unfold shouldDrawStatus
  cases hbar : S.statusbar with
  | none => simp
  | some bar =>
    by_cases hf : S.format = outputFormatText
    · by_cases hv : S.verbose ≤ verbosityQuiet
      · simp [hf, hv]
      · simp [hf, hv, not_le.mp hv]
    · simp [hf]

theorem drawStatus_of_not_should (L : Lib) (S : State) (h : shouldDrawStatus S = false) :
    drawStatus L S = S := by
  simp [drawStatus, h]

/-- C6: for every template, argument list and configured minimum severity,
warningf and warningln called while the verbosity is quiet or below leave the
whole state unchanged: nothing is handed to the sink and the status bar is
neither rendered nor cleared. -/
theorem warningf_quiet_noop (L : Lib) (S : State) (hquiet : S.verbose ≤ verbosityQuiet)
    (format : String) (args : List Value) :
    warningf L S format args = S ∧ warningln L S args = S := by
  constructor
  · simp [warningf, hquiet]
  · simp [warningln, warningf, hquiet]

/-- Witness for C6: quiet verbosity, a logger at trace level, a status bar
present. -/
theorem warningf_quiet_noop_witness :
    (State.mk outputFormatText verbosityQuiet ⟨Level.Trace⟩ (some ⟨.str "busy", []⟩) 4 []).verbose
        ≤ verbosityQuiet
      ∧ warningf exampleLib
          (State.mk outputFormatText verbosityQuiet ⟨Level.Trace⟩ (some ⟨.str "busy", []⟩) 4 [])
          "%s" [Value.str "careful"]
        = State.mk outputFormatText verbosityQuiet ⟨Level.Trace⟩ (some ⟨.str "busy", []⟩) 4 [] :=
  ⟨by decide,
   (warningf_quiet_noop exampleLib
      (State.mk outputFormatText verbosityQuiet ⟨Level.Trace⟩ (some ⟨.str "busy", []⟩) 4 [])
      (by decide) "%s" [Value.str "careful"]).1⟩

/-- C7: shouldDrawStatus returns true exactly when a status bar is configured,
the output format is text and the verbosity is above quiet; so drawStatus
changes nothing (no render, no write) whenever no status bar is configured, or
the output format is not text (structured), or the verbosity is quiet or below,
each condition sufficing alone. -/
theorem shouldDrawStatus_spec (L : Lib) (S : State) :
    (shouldDrawStatus S = true
        ↔ S.statusbar.isSome = true ∧ S.format = outputFormatText ∧ verbosityQuiet < S.verbose)
      ∧ (S.statusbar = none → drawStatus L S = S)
      ∧ (S.format ≠ outputFormatText → drawStatus L S = S)
      ∧ (S.verbose ≤ verbosityQuiet → drawStatus L S = S) := by
  refine ⟨shouldDrawStatus_eq_true_iff S, ?_, ?_, ?_⟩
  · intro h
    apply drawStatus_of_not_should
    simp [shouldDrawStatus, h]
  · intro h
    apply drawStatus_of_not_should
    simp [shouldDrawStatus, h]
  · intro h
    apply drawStatus_of_not_should
    simp [shouldDrawStatus, h]

/-- Witness for C7: structured output with a status bar present and normal
verbosity; drawStatus changes nothing. -/
theorem shouldDrawStatus_spec_witness :
    (State.mk outputFormatJSON verbosityNormal ⟨Level.Info⟩ (some ⟨.str "busy", []⟩) 4 []).format
        ≠ outputFormatText
      ∧ drawStatus exampleLib
          (State.mk outputFormatJSON verbosityNormal ⟨Level.Info⟩ (some ⟨.str "busy", []⟩) 4 [])
        = State.mk outputFormatJSON verbosityNormal ⟨Level.Info⟩ (some ⟨.str "busy", []⟩) 4 [] :=
  ⟨by decide,
   (shouldDrawStatus_spec exampleLib
      (State.mk outputFormatJSON verbosityNormal ⟨Level.Info⟩ (some ⟨.str "busy", []⟩) 4 [])).2.2.1
      (by decide)⟩

/-- C8: for every configuration, template and argument list, the effects of
fatalf are, in this order and nothing else: a clear of the status bar exactly
when shouldDrawStatus holds, one message handed to the sink at fatal severity
carrying the wrapped message, and the termination of the process with exit
code 1; the same holds for fatalln with the template "%s" applied to the
printed arguments. -/
theorem fatalf_effects (L : Lib) (S : State) (format : String) (args : List Value) :
    (fatalf L S format args).events
        = S.events ++ (if shouldDrawStatus S = true then [Event.clear] else [])
          ++ [Event.log Level.Fatal
                (wrapLines L S.loggerFormattingBasicLength format
                  (serializeErrors L S.format args)),
              Event.exit 1]
      ∧ (fatalln L S args).events
        = S.events ++ (if shouldDrawStatus S = true then [Event.clear] else [])
          ++ [Event.log Level.Fatal
                (wrapLines L S.loggerFormattingBasicLength "%s"
                  [Value.str (Sprint L (serializeErrors L S.format args))]),
              Event.exit 1] := by
  have key : ∀ (fmt : String) (as : List Value),
      (fatalf L S fmt as).events
        = S.events ++ (if shouldDrawStatus S = true then [Event.clear] else [])
          ++ [Event.log Level.Fatal
                (wrapLines L S.loggerFormattingBasicLength fmt (serializeErrors L S.format as)),
              Event.exit 1] := by
    intro fmt as
    cases hdraw : shouldDrawStatus S <;>
      simp [fatalf, clearStatus, exit, State.logf, State.emit, hdraw]
  refine ⟨key format args, ?_⟩
  unfold fatalln
  rw [key, serializeErrors_single_str]

/-- C10: when shouldDrawStatus holds and rendering the status bar fails with an
error, the effects of drawStatus are exactly one render followed by exactly one
message handed to the sink at error severity (the wrapped text of the
hierarchical error "can't draw status bar" around the render error); the status
bar has used up one render result, and no termination of the process occurs. -/
theorem drawStatus_render_failure (L : Lib) (S : State) (bar : StatusBar) (err : GoError)
    (hdraw : shouldDrawStatus S = true) (hbar : S.statusbar = some bar)
    (hfail : bar.Render.1 = some err) :
    (drawStatus L S).events
        = S.events ++
          [Event.render bar.status,
           Event.log Level.Error
             (wrapLines L S.loggerFormattingBasicLength "%s"
               [Value.str (L.hierrError (L.Sprintf "can't draw status bar" [])
                 (Value.error err))])]
      ∧ (drawStatus L S).statusbar = some bar.Render.2
      ∧ bar.Render.2.renderResults = bar.renderResults.tail := by
  have hfmt : S.format = outputFormatText := ((shouldDrawStatus_eq_true_iff S).mp hdraw).2.1
  have hser : serializeErrors L outputFormatText
      [Value.error (hierrErrorf L (Value.error err) "can't draw status bar" [])]
      = [Value.str (L.hierrError (L.Sprintf "can't draw status bar" []) (Value.error err))] := by
    rw [serializeErrors_eq_map]
    simp [rewriteArg, hierrErrorf, serializeError, Sprint_single, printArg, GoError.fmtText]
  refine ⟨?_, ?_, ?_⟩
  · simp [drawStatus, hdraw, hbar, hfail, errorf, State.logf, State.emit, hfmt, hser]
  · simp [drawStatus, hdraw, hbar, hfail, errorf, State.logf, State.emit]
  · unfold StatusBar.Render at hfail ⊢
    cases hres : bar.renderResults with
    | nil => simp [hres] at hfail
    | cons r rest => simp

/-- Witness for C10: text output, normal verbosity, and a status bar whose next
render fails with the error "broken pipe". -/
theorem drawStatus_render_failure_witness :
    shouldDrawStatus
        (State.mk outputFormatText verbosityNormal ⟨Level.Info⟩
          (some ⟨.str "busy", [some (.plain "broken pipe" "broken pipe" false)]⟩) 4 []) = true
      ∧ (drawStatus exampleLib
          (State.mk outputFormatText verbosityNormal ⟨Level.Info⟩
            (some ⟨.str "busy", [some (.plain "broken pipe" "broken pipe" false)]⟩) 4 [])).events
        = [] ++
          [Event.render (.str "busy"),
           Event.log Level.Error
             (wrapLines exampleLib 4 "%s"
               [Value.str (exampleLib.hierrError (exampleLib.Sprintf "can't draw status bar" [])
                 (Value.error (.plain "broken pipe" "broken pipe" false)))])] :=
  ⟨by decide,
   (drawStatus_render_failure exampleLib
      (State.mk outputFormatText verbosityNormal ⟨Level.Info⟩
        (some ⟨.str "busy", [some (.plain "broken pipe" "broken pipe" false)]⟩) 4 [])
      ⟨.str "busy", [some (.plain "broken pipe" "broken pipe" false)]⟩ (.plain "broken pipe" "broken pipe" false)
      (by decide) rfl rfl).1⟩

/-! ## Effects of the tiers -/

theorem exitCodes_append (xs ys : List Event) :
    exitCodes (xs ++ ys) = exitCodes xs ++ exitCodes ys := by
  induction xs with
  | nil => rfl
  | cons x rest ih => cases x <;> simp [exitCodes, ih]

theorem statusEffects_append (xs ys : List Event) :
    statusEffects (xs ++ ys) = statusEffects xs ++ statusEffects ys := by
  induction xs with
  | nil => rfl
  | cons x rest ih => cases x <;> simp [statusEffects, ih]

theorem errorf_eq (L : Lib) (S : State) (format : String) (args : List Value) :
    errorf L S format args
      = { S with events := S.events ++
            [Event.log Level.Error
              (wrapLines L S.loggerFormattingBasicLength format
                (serializeErrors L S.format args))] } := by
  simp [errorf, State.logf, State.emit]

theorem shouldDrawStatus_logf (S : State) (level : Level) (message : String) :
    shouldDrawStatus (S.logf level message) = shouldDrawStatus S := by
  simp [shouldDrawStatus, State.logf, State.emit]

theorem drawStatus_success (L : Lib) (S : State) (bar : StatusBar)
    (hdraw : shouldDrawStatus S = true) (hbar : S.statusbar = some bar)
    (hok : bar.Render.1 = none) :
    drawStatus L S
      = { S with statusbar := some bar.Render.2,
                 events := S.events ++ [Event.render bar.status] } := by
  simp [drawStatus, hdraw, hbar, hok, State.emit]

theorem drawStatus_failure (L : Lib) (S : State) (bar : StatusBar) (err : GoError)
    (hdraw : shouldDrawStatus S = true) (hbar : S.statusbar = some bar)
    (hfail : bar.Render.1 = some err) :
    drawStatus L S
      = { S with statusbar := some bar.Render.2,
                 events := S.events ++
                   [Event.render bar.status,
                    Event.log Level.Error
                      (wrapLines L S.loggerFormattingBasicLength "%s"
                        (serializeErrors L S.format
                          [Value.error
                            (hierrErrorf L (Value.error err) "can't draw status bar" [])]))] } := by
  simp [drawStatus, hdraw, hbar, hfail, State.emit, errorf, State.logf]

/-- The effects of drawStatus: nothing, or one render, or one render followed
by one message at error severity. -/
theorem drawStatus_events (L : Lib) (S : State) :
    (drawStatus L S).events = S.events
      ∨ (∃ status, (drawStatus L S).events = S.events ++ [Event.render status])
      ∨ (∃ status message, (drawStatus L S).events
          = S.events ++ [Event.render status, Event.log Level.Error message]) := by
  cases hdraw : shouldDrawStatus S with
  | false => exact Or.inl (by rw [drawStatus_of_not_should L S hdraw])
  | true =>
    cases hbar : S.statusbar with
    | none => exact Or.inl (by simp [drawStatus, hdraw, hbar])
    | some bar =>
      cases hres : bar.Render.1 with
      | none =>
        exact Or.inr (Or.inl ⟨bar.status, by rw [drawStatus_success L S bar hdraw hbar hres]⟩)
      | some err =>
        exact Or.inr (Or.inr ⟨bar.status, _,
          by rw [drawStatus_failure L S bar err hdraw hbar hres]⟩)

theorem drawStatus_exitCodes (L : Lib) (S : State) :
    exitCodes (drawStatus L S).events = exitCodes S.events := by
  rcases drawStatus_events L S with h | ⟨st, h⟩ | ⟨st, msg, h⟩ <;>
    simp [h, exitCodes_append, exitCodes]

/-- C11: for every configuration, template and argument list, errorf hands
exactly one message to the sink, at error severity, and changes nothing else:
the status bar is neither rendered nor cleared; the same holds for errorln with
the template "%s" applied to the printed arguments. -/
theorem errorf_effects (L : Lib) (S : State) (format : String) (args : List Value) :
    errorf L S format args
        = { S with events := S.events ++
              [Event.log Level.Error
                (wrapLines L S.loggerFormattingBasicLength format
                  (serializeErrors L S.format args))] }
      ∧ errorln L S args
        = { S with events := S.events ++
              [Event.log Level.Error
                (wrapLines L S.loggerFormattingBasicLength "%s"
                  [Value.str (Sprint L (serializeErrors L S.format args))])] }
      ∧ statusEffects (errorf L S format args).events = statusEffects S.events
      ∧ statusEffects (errorln L S args).events = statusEffects S.events := by
  refine ⟨errorf_eq L S format args, ?_, ?_, ?_⟩
  · rw [errorln, errorf_eq, serializeErrors_single_str]
  · rw [errorf_eq]
    simp [statusEffects_append, statusEffects]
  · rw [errorln, errorf_eq]
    simp [statusEffects_append, statusEffects]

/-- C13: when the output format is text, serializeError returns the default
text of the error, what `fmt.Sprint` prints for it, for every error; for a
hierarchical error this is the rendering of the hierarchical error library
applied to the message and the untouched nested value, whatever that value
is. -/
theorem serializeError_text (L : Lib) (e : GoError) :
    serializeError L outputFormatText e = Sprint L [Value.error e]
      ∧ serializeError L outputFormatText e = e.fmtText L
      ∧ (∀ (M : String) (N : Value),
          serializeError L outputFormatText (.hier M N) = L.hierrError M N) := by
  have key : ∀ e : GoError, serializeError L outputFormatText e = Sprint L [Value.error e] := by
    intro e
    cases e <;> simp [serializeError]
  refine ⟨key e, ?_, ?_⟩
  · rw [key, Sprint_single, printArg_error]
  · intro M N
    rw [key, Sprint_single, printArg_error]
    rfl

/-- C17: under a non-text output format, a hierarchical error with message M
whose nested value is neither an error nor a list of parts serializes to M,
then ": ", then the default text of the nested value; for a nested plain string
s the result is exactly M, ": ", s. -/
theorem serializeError_nested_leaf (L : Lib) (format : outputFormat)
    (hfmt : format ≠ outputFormatText) (M : String) (N : Value)
    (hnotError : ∀ e, N ≠ Value.error e) (hnotParts : ∀ ps, N ≠ Value.parts ps) :
    serializeError L format (.hier M N) = M ++ ": " ++ Sprint L [N]
      ∧ (∀ s : String, serializeError L format (.hier M (.str s)) = M ++ ": " ++ s) := by
  constructor
  · cases N with
    | error e => exact absurd rfl (hnotError e)
    | parts ps => exact absurd rfl (hnotParts ps)
    | nil => simp [serializeError, serializeNested, hfmt]
    | str s => simp [serializeError, serializeNested, hfmt]
    | other t k => simp [serializeError, serializeNested, hfmt]
  · intro s
    simp [serializeError, serializeNested, hfmt, Sprint_single, printArg]

/-- Witness for C17: structured output, message "M" and the absent (nil) nested
value, whose default text is "<nil>". -/
theorem serializeError_nested_leaf_witness :
    outputFormatJSON ≠ outputFormatText
      ∧ serializeError exampleLib outputFormatJSON (.hier "M" .nil)
        = "M" ++ ": " ++ Sprint exampleLib [Value.nil] :=
  ⟨by decide,
   (serializeError_nested_leaf exampleLib outputFormatJSON (by decide) "M" .nil
      (fun _ h => Value.noConfusion h) (fun _ h => Value.noConfusion h)).1⟩

theorem Render_status (bar : StatusBar) : bar.Render.2.status = bar.status := by
  unfold StatusBar.Render
  cases bar.renderResults <;> rfl

theorem Render_SetStatus_result (bar : StatusBar) (status : Value) :
    (bar.SetStatus status).Render.1 = bar.Render.1 := by
  unfold StatusBar.Render StatusBar.SetStatus
  cases bar.renderResults <;> rfl

theorem drawStatus_statusEffects (L : Lib) (S : State) (bar : StatusBar)
    (hbar : S.statusbar = some bar) :
    statusEffects (drawStatus L S).events
        = statusEffects S.events
          ++ (if shouldDrawStatus S = true then [Event.render bar.status] else [])
      ∧ (drawStatus L S).statusbar.map StatusBar.status = some bar.status := by
  cases hdraw : shouldDrawStatus S with
  | false =>
    rw [drawStatus_of_not_should L S hdraw]
    simp [hbar]
  | true =>
    cases hres : bar.Render.1 with
    | none =>
      rw [drawStatus_success L S bar hdraw hbar hres]
      simp [statusEffects_append, statusEffects, Render_status]
    | some err =>
      rw [drawStatus_failure L S bar err hdraw hbar hres]
      simp [statusEffects_append, statusEffects, Render_status]

/-- C12: each of tracef, debugf, infof, and warningf with verbosity above
quiet, is the delivery of the wrapped message to the sink at the severity of
the tier followed by drawStatus on the resulting state; so when shouldDrawStatus
holds and the render succeeds, the effects of the call are exactly the sink
write and then the status render, the render being last. -/
theorem emission_then_drawStatus (L : Lib) (S : State) (format : String) (args : List Value) :
    (tracef L S format args
        = drawStatus L (S.logf Level.Trace
            (wrapLines L S.loggerFormattingBasicLength format (serializeErrors L S.format args)))
      ∧ debugf L S format args
        = drawStatus L (S.logf Level.Debug
            (wrapLines L S.loggerFormattingBasicLength format (serializeErrors L S.format args)))
      ∧ infof L S format args
        = drawStatus L (S.logf Level.Info
            (wrapLines L S.loggerFormattingBasicLength format (serializeErrors L S.format args)))
      ∧ (verbosityQuiet < S.verbose →
          warningf L S format args
            = drawStatus L (S.logf Level.Warning
                (wrapLines L S.loggerFormattingBasicLength format
                  (serializeErrors L S.format args)))))
      ∧ (∀ bar : StatusBar, shouldDrawStatus S = true → S.statusbar = some bar →
          bar.Render.1 = none →
          (tracef L S format args).events
              = S.events ++
                [Event.log Level.Trace
                  (wrapLines L S.loggerFormattingBasicLength format
                    (serializeErrors L S.format args)),
                 Event.render bar.status]
            ∧ (debugf L S format args).events
              = S.events ++
                [Event.log Level.Debug
                  (wrapLines L S.loggerFormattingBasicLength format
                    (serializeErrors L S.format args)),
                 Event.render bar.status]
            ∧ (infof L S format args).events
              = S.events ++
                [Event.log Level.Info
                  (wrapLines L S.loggerFormattingBasicLength format
                    (serializeErrors L S.format args)),
                 Event.render bar.status]
            ∧ (warningf L S format args).events
              = S.events ++
                [Event.log Level.Warning
                  (wrapLines L S.loggerFormattingBasicLength format
                    (serializeErrors L S.format args)),
                 Event.render bar.status]) := by
  have hwarn : verbosityQuiet < S.verbose →
      warningf L S format args
        = drawStatus L (S.logf Level.Warning
            (wrapLines L S.loggerFormattingBasicLength format
              (serializeErrors L S.format args))) := by
    intro hv
    simp [warningf, not_le.mpr hv]
  have hlast : ∀ (bar : StatusBar) (level : Level) (message : String),
      shouldDrawStatus S = true → S.statusbar = some bar → bar.Render.1 = none →
      (drawStatus L (S.logf level message)).events
        = S.events ++ [Event.log level message, Event.render bar.status] := by
    intro bar level message hdraw hbar hok
    rw [drawStatus_success L (S.logf level message) bar
      (by rw [shouldDrawStatus_logf]; exact hdraw)
      (by simpa [State.logf, State.emit] using hbar) hok]
    simp [State.logf, State.emit]
  refine ⟨⟨rfl, rfl, rfl, hwarn⟩, ?_⟩
  intro bar hdraw hbar hok
  have hv : verbosityQuiet < S.verbose := ((shouldDrawStatus_eq_true_iff S).mp hdraw).2.2
  refine ⟨?_, ?_, ?_, ?_⟩
  · exact hlast bar _ _ hdraw hbar hok
  · exact hlast bar _ _ hdraw hbar hok
  · exact hlast bar _ _ hdraw hbar hok
  · rw [hwarn hv]
    exact hlast bar _ _ hdraw hbar hok

/-- Witness for C12: text output, normal verbosity, a status bar whose render
succeeds; infof writes to the sink and then renders the status. -/
theorem emission_then_drawStatus_witness :
    shouldDrawStatus
        (State.mk outputFormatText verbosityNormal ⟨Level.Info⟩ (some ⟨.str "busy", []⟩) 4 [])
        = true
      ∧ (infof exampleLib
          (State.mk outputFormatText verbosityNormal ⟨Level.Info⟩ (some ⟨.str "busy", []⟩) 4 [])
          "%s" [Value.str "hello"]).events
        = [] ++
          [Event.log Level.Info
            (wrapLines exampleLib 4 "%s"
              (serializeErrors exampleLib outputFormatText [Value.str "hello"])),
           Event.render (.str "busy")] :=
  ⟨by decide,
   ((emission_then_drawStatus exampleLib
      (State.mk outputFormatText verbosityNormal ⟨Level.Info⟩ (some ⟨.str "busy", []⟩) 4 [])
      "%s" [Value.str "hello"]).2 ⟨.str "busy", []⟩ (by decide) rfl rfl).2.2.1⟩

/-- C14: for every configuration and every input, none of tracef, debugf,
infof, warningf, errorf, their plain variants, setStatus, drawStatus and
clearStatus records a termination of the process (render failures included,
since the state is arbitrary), while fatalf and fatalln record exactly one,
with exit code 1. -/
theorem exit_only_in_fatal (L : Lib) (S : State) (format : String) (args : List Value)
    (status : Value) :
    exitCodes (tracef L S format args).events = exitCodes S.events
      ∧ exitCodes (traceln L S args).events = exitCodes S.events
      ∧ exitCodes (debugf L S format args).events = exitCodes S.events
      ∧ exitCodes (debugln L S args).events = exitCodes S.events
      ∧ exitCodes (infof L S format args).events = exitCodes S.events
      ∧ exitCodes (infoln L S args).events = exitCodes S.events
      ∧ exitCodes (warningf L S format args).events = exitCodes S.events
      ∧ exitCodes (warningln L S args).events = exitCodes S.events
      ∧ exitCodes (errorf L S format args).events = exitCodes S.events
      ∧ exitCodes (errorln L S args).events = exitCodes S.events
      ∧ exitCodes (setStatus L S status).events = exitCodes S.events
      ∧ exitCodes (drawStatus L S).events = exitCodes S.events
      ∧ exitCodes (clearStatus S).events = exitCodes S.events
      ∧ exitCodes (fatalf L S format args).events = exitCodes S.events ++ [1]
      ∧ exitCodes (fatalln L S args).events = exitCodes S.events ++ [1] := by
  have hlog : ∀ (level : Level) (message : String),
      exitCodes (drawStatus L (S.logf level message)).events = exitCodes S.events := by
    intro level message
    rw [drawStatus_exitCodes]
    simp [State.logf, State.emit, exitCodes_append, exitCodes]
  have hwarn : ∀ (fmt : String) (as : List Value),
      exitCodes (warningf L S fmt as).events = exitCodes S.events := by
    intro fmt as
    unfold warningf
    by_cases hq : S.verbose ≤ verbosityQuiet
    · simp [hq]
    · simp only [hq, if_false]
      exact hlog _ _
  have herr : ∀ (fmt : String) (as : List Value),
      exitCodes (errorf L S fmt as).events = exitCodes S.events := by
    intro fmt as
    rw [errorf_eq]
    simp [exitCodes_append, exitCodes]
  have hclear : exitCodes (clearStatus S).events = exitCodes S.events := by
    unfold clearStatus
    cases shouldDrawStatus S <;> simp [State.emit, exitCodes_append, exitCodes]
  have hfatal : ∀ (fmt : String) (as : List Value),
      exitCodes (fatalf L S fmt as).events = exitCodes S.events ++ [1] := by
    intro fmt as
    simp only [fatalf, exit, State.logf, State.emit, exitCodes_append, exitCodes, hclear,
      List.append_nil]
  refine ⟨hlog _ _, hlog _ _, hlog _ _, hlog _ _, hlog _ _, hlog _ _, hwarn _ _, hwarn _ _,
    herr _ _, herr _ _, ?_, drawStatus_exitCodes L S, hclear, hfatal _ _, hfatal _ _⟩
  unfold setStatus
  cases hbar : S.statusbar with
  | none => rfl
  | some bar => simp [drawStatus_exitCodes]

/-- C16: setStatus leaves the whole state unchanged when no status bar is
configured; otherwise it is drawStatus run on the state whose status bar holds
the new status, the bar holds that status afterwards, and the status bar
effects of the call are one render of the new status exactly when
shouldDrawStatus holds, and none otherwise. -/
theorem setStatus_spec (L : Lib) (S : State) (status : Value) :
    (S.statusbar = none → setStatus L S status = S)
      ∧ (∀ bar : StatusBar, S.statusbar = some bar →
          setStatus L S status
              = drawStatus L { S with statusbar := some (bar.SetStatus status) }
            ∧ (setStatus L S status).statusbar.map StatusBar.status = some status
            ∧ statusEffects (setStatus L S status).events
              = statusEffects S.events
                ++ (if shouldDrawStatus S = true then [Event.render status] else [])) := by
  constructor
  · intro hnone
    simp [setStatus, hnone]
  · intro bar hbar
    have hset : setStatus L S status
        = drawStatus L { S with statusbar := some (bar.SetStatus status) } := by
      simp [setStatus, hbar]
    have hshould : shouldDrawStatus { S with statusbar := some (bar.SetStatus status) }
        = shouldDrawStatus S := by
      simp [shouldDrawStatus, hbar]
    have h := drawStatus_statusEffects L { S with statusbar := some (bar.SetStatus status) }
      (bar.SetStatus status) rfl
    rw [hshould] at h
    refine ⟨hset, ?_, ?_⟩
    · rw [hset]
      exact h.2
    · rw [hset]
      exact h.1

/-- Witness for C16: text output, normal verbosity, a status bar holding
"idle"; setting the status "busy" renders it once. -/
theorem setStatus_spec_witness :
    (State.mk outputFormatText verbosityNormal ⟨Level.Info⟩ (some ⟨.str "idle", []⟩) 4 []).statusbar
        = some ⟨.str "idle", []⟩
      ∧ statusEffects (setStatus exampleLib
          (State.mk outputFormatText verbosityNormal ⟨Level.Info⟩ (some ⟨.str "idle", []⟩) 4 [])
          (.str "busy")).events
        = statusEffects [] ++
          (if shouldDrawStatus
              (State.mk outputFormatText verbosityNormal ⟨Level.Info⟩
                (some ⟨.str "idle", []⟩) 4 []) = true
            then [Event.render (.str "busy")] else []) :=
  ⟨rfl,
   ((setStatus_spec exampleLib
      (State.mk outputFormatText verbosityNormal ⟨Level.Info⟩ (some ⟨.str "idle", []⟩) 4 [])
      (.str "busy")).2 ⟨.str "idle", []⟩ rfl).2.2⟩

/-! ## Idempotence of the rewriting of arguments -/

theorem rewriteArg_not_error (L : Lib) (format : outputFormat) (v : Value) :
    ∀ e, rewriteArg L format v ≠ Value.error e := by
  intro e
  cases v <;> simp [rewriteArg]

theorem rewriteArg_idem (L : Lib) (format format2 : outputFormat) (v : Value) :
    rewriteArg L format2 (rewriteArg L format v) = rewriteArg L format v := by
  cases v <;> rfl

/-- C19: for every argument list the result of serializeErrors holds no error
value, so a further serializeErrors pass (under any output format) returns it
unchanged; the pass that a formatted variant runs on the single string it
receives from its plain variant changes nothing, so each plain variant acts as
its formatted variant without that pass. -/
theorem serializeErrors_idempotent (L : Lib) (format format2 : outputFormat)
    (args : List Value) (S : State) :
    (∀ v ∈ serializeErrors L format args, ∀ e, v ≠ Value.error e)
      ∧ serializeErrors L format2 (serializeErrors L format args)
        = serializeErrors L format args
      ∧ serializeErrors L format2 [Value.str (Sprint L (serializeErrors L format args))]
        = [Value.str (Sprint L (serializeErrors L format args))]
      ∧ traceln L S args
        = drawStatus L (S.logf Level.Trace (wrapLines L S.loggerFormattingBasicLength "%s"
            [Value.str (Sprint L (serializeErrors L S.format args))]))
      ∧ debugln L S args
        = drawStatus L (S.logf Level.Debug (wrapLines L S.loggerFormattingBasicLength "%s"
            [Value.str (Sprint L (serializeErrors L S.format args))]))
      ∧ infoln L S args
        = drawStatus L (S.logf Level.Info (wrapLines L S.loggerFormattingBasicLength "%s"
            [Value.str (Sprint L (serializeErrors L S.format args))]))
      ∧ warningln L S args
        = (if S.verbose ≤ verbosityQuiet then S
           else drawStatus L (S.logf Level.Warning
            (wrapLines L S.loggerFormattingBasicLength "%s"
              [Value.str (Sprint L (serializeErrors L S.format args))])))
      ∧ errorln L S args
        = S.logf Level.Error (wrapLines L S.loggerFormattingBasicLength "%s"
            [Value.str (Sprint L (serializeErrors L S.format args))])
      ∧ fatalln L S args
        = exit 1 ((clearStatus S).logf Level.Fatal
            (wrapLines L S.loggerFormattingBasicLength "%s"
              [Value.str (Sprint L (serializeErrors L S.format args))])) := by
  refine ⟨?_, ?_, serializeErrors_single_str L format2 _, ?_, ?_, ?_, ?_, ?_, ?_⟩
  · intro v hv e
    rw [serializeErrors_eq_map] at hv
    obtain ⟨w, _, hw⟩ := List.mem_map.mp hv
    rw [← hw]
    exact rewriteArg_not_error L format w e
  · rw [serializeErrors_eq_map L format2, serializeErrors_eq_map L format, List.map_map]
    apply List.map_congr_left
    intro v _
    exact rewriteArg_idem L format format2 v
  · simp only [traceln, tracef]
    rw [serializeErrors_single_str]
  · simp only [debugln, debugf]
    rw [serializeErrors_single_str]
  · simp only [infoln, infof]
    rw [serializeErrors_single_str]
  · simp only [warningln, warningf]
    rw [serializeErrors_single_str]
  · simp only [errorln, errorf]
    rw [serializeErrors_single_str]
  · simp only [fatalln, fatalf]
    rw [serializeErrors_single_str]
    simp [clearStatus, State.logf, State.emit]
    cases shouldDrawStatus S <;> rfl

/-! ## Termination of the serialization -/

theorem GoError.errorSize_pos (e : GoError) : 1 ≤ e.size := by
  cases e <;> simp [GoError.size]

theorem Value.valueSize_pos (v : Value) : 1 ≤ v.size := by
  cases v <;> simp [Value.size]

theorem Value.sizeList_pos (ps : List Value) : 1 ≤ Value.sizeList ps := by
  cases ps with
  | nil => simp [Value.sizeList]
  | cons p rest =>
    simp only [Value.sizeList]
    omega

theorem Value.size_le_sizeList (ps : List Value) (p : Value) (hp : p ∈ ps) :
    p.size < Value.sizeList ps := by
  induction ps with
  | nil => simp at hp
  | cons q rest ih =>
    simp only [Value.sizeList]
    rcases List.mem_cons.mp hp with h | h
    · subst h
      omega
    · have := ih h
      omega

theorem serializeFuel_complete (L : Lib) (format : outputFormat) :
    ∀ fuel : Nat,
      (∀ e : GoError, e.size ≤ fuel →
        serializeErrorFuel L format fuel e = some (serializeError L format e))
      ∧ (∀ N : Value, N.size ≤ fuel →
        serializeNestedFuel L format fuel N = some (serializeNested L format N))
      ∧ (∀ ps : List Value, Value.sizeList ps ≤ fuel →
        serializeErrorPartsFuel L format fuel ps = some (serializeErrorParts L format ps)) := by
  intro fuel
  induction fuel with
  | zero =>
    refine ⟨?_, ?_, ?_⟩
    · intro e h
      have := e.errorSize_pos
      omega
    · intro N h
      have := N.valueSize_pos
      omega
    · intro ps h
      have := Value.sizeList_pos ps
      omega
  | succ fuel ih =>
    obtain ⟨ihE, ihN, ihP⟩ := ih
    refine ⟨?_, ?_, ?_⟩
    · intro e h
      cases e with
      | plain text printed k =>
        by_cases hf : format = outputFormatText <;> simp [serializeErrorFuel, serializeError, hf]
      | hier M N =>
        by_cases hf : format = outputFormatText
        · simp [serializeErrorFuel, serializeError, hf]
        · have hN : N.size ≤ fuel := by
            simp only [GoError.size] at h
            omega
          simp [serializeErrorFuel, serializeError, hf, ihN N hN]
    · intro N h
      cases N with
      | error e =>
        have he : e.size ≤ fuel := by
          simp only [Value.size] at h
          omega
        simp [serializeNestedFuel, serializeNested, ihE e he]
      | parts ps =>
        have hps : Value.sizeList ps ≤ fuel := by
          simp only [Value.size] at h
          omega
        simp [serializeNestedFuel, serializeNested, ihP ps hps]
      | nil => simp [serializeNestedFuel, serializeNested]
      | str s => simp [serializeNestedFuel, serializeNested]
      | other t k => simp [serializeNestedFuel, serializeNested]
    · intro ps h
      cases ps with
      | nil => simp [serializeErrorPartsFuel, serializeErrorParts]
      | cons p rest =>
        simp only [Value.sizeList] at h
        have hrest : Value.sizeList rest ≤ fuel := by omega
        cases p with
        | error e =>
          have he : e.size ≤ fuel := by
            simp only [Value.size] at h
            omega
          simp [serializeErrorPartsFuel, serializeErrorParts, ihE e he, ihP rest hrest]
        | nil => simp [serializeErrorPartsFuel, serializeErrorParts, ihP rest hrest]
        | str s => simp [serializeErrorPartsFuel, serializeErrorParts, ihP rest hrest]
        | other t k => simp [serializeErrorPartsFuel, serializeErrorParts, ihP rest hrest]
        | parts qs => simp [serializeErrorPartsFuel, serializeErrorParts, ihP rest hrest]

/-- C15: serializeError terminates on every error value under either output
format: run with a step budget of at least the number of nodes of the error it
returns a result, the one of the recursive function; the recursive calls are
made on the nested error or on an error part of the nested list, and both have
fewer nodes than the error being serialized. -/
theorem serializeError_terminates (L : Lib) (format : outputFormat) (e : GoError) :
    (∀ fuel : Nat, e.size ≤ fuel →
        serializeErrorFuel L format fuel e = some (serializeError L format e))
      ∧ (∀ (M : String) (nested : GoError),
          nested.size < (GoError.hier M (.error nested)).size)
      ∧ (∀ (M : String) (ps : List Value) (part : GoError), Value.error part ∈ ps →
          part.size < (GoError.hier M (.parts ps)).size) := by
  refine ⟨fun fuel h => (serializeFuel_complete L format fuel).1 e h, ?_, ?_⟩
  · intro M nested
    simp only [GoError.size, Value.size]
    omega
  · intro M ps part hmem
    have h := Value.size_le_sizeList ps (Value.error part) hmem
    simp only [GoError.size, Value.size] at h ⊢
    omega

/-- Witness for C15: a hierarchical error with three parts has ten nodes, and a
budget of ten steps serializes it under structured output. -/
theorem serializeError_terminates_witness :
    (GoError.hier "M" (.parts [.str "a", .error (.plain "b" "b" false), .str "c"])).size ≤ 10
      ∧ serializeErrorFuel exampleLib outputFormatJSON 10
          (.hier "M" (.parts [.str "a", .error (.plain "b" "b" false), .str "c"]))
        = some (serializeError exampleLib outputFormatJSON
            (.hier "M" (.parts [.str "a", .error (.plain "b" "b" false), .str "c"]))) :=
  ⟨by decide,
   (serializeError_terminates exampleLib outputFormatJSON
      (.hier "M" (.parts [.str "a", .error (.plain "b" "b" false), .str "c"]))).1 10 (by decide)⟩

/-! ## Single-line serialization -/

theorem hasNoBreak_iff (s : String) : hasNoBreak s = true ↔ '\n' ∉ s.data := by
  simp [hasNoBreak]

theorem noBreak_append (a b : String) :
    '\n' ∉ (a ++ b).data ↔ '\n' ∉ a.data ∧ '\n' ∉ b.data := by
  simp [String.data_append, not_or]

theorem Join_noBreak (ss : List String) (h : ∀ s ∈ ss, '\n' ∉ s.data) :
    '\n' ∉ (Join ss "; ").data := by
  induction ss with
  | nil => simp [Join]
  | cons a rest ih =>
    cases rest with
    | nil =>
      simp only [Join]
      exact h a (List.mem_cons_self _ _)
    | cons b more =>
      simp only [Join]
      rw [noBreak_append, noBreak_append]
      refine ⟨⟨h a (List.mem_cons_self _ _), by decide⟩, ?_⟩
      exact ih (fun s hs => h s (List.mem_cons_of_mem _ hs))

theorem serialize_singleLine (L : Lib) (format : outputFormat)
    (hfmt : format ≠ outputFormatText) :
    ∀ n : Nat,
      (∀ e : GoError, e.size ≤ n → e.singleLine L = true →
        '\n' ∉ (serializeError L format e).data)
      ∧ (∀ N : Value, N.size ≤ n → Value.singleLineNested L N = true →
        '\n' ∉ (serializeNested L format N).data)
      ∧ (∀ ps : List Value, Value.sizeList ps ≤ n → Value.singleLineParts L ps = true →
        ∀ s ∈ serializeErrorParts L format ps, '\n' ∉ s.data) := by
  intro n
  induction n with
  | zero =>
    refine ⟨?_, ?_, ?_⟩
    · intro e h
      have := e.errorSize_pos
      omega
    · intro N h
      have := N.valueSize_pos
      omega
    · intro ps h
      have := Value.sizeList_pos ps
      omega
  | succ n ih =>
    obtain ⟨ihE, ihN, ihP⟩ := ih
    refine ⟨?_, ?_, ?_⟩
    · intro e h hline
      cases e with
      | plain text printed k =>
        simp only [GoError.singleLine, hasNoBreak_iff] at hline
        simpa [serializeError, hfmt] using hline
      | hier M N =>
        simp only [GoError.singleLine, Bool.and_eq_true, hasNoBreak_iff] at hline
        have hN : N.size ≤ n := by
          simp only [GoError.size] at h
          omega
        simp only [serializeError, hfmt, if_false]
        rw [noBreak_append, noBreak_append]
        exact ⟨⟨hline.1, by decide⟩, ihN N hN hline.2⟩
    · intro N h hline
      cases N with
      | error e =>
        have he : e.size ≤ n := by
          simp only [Value.size] at h
          omega
        simp only [Value.singleLineNested] at hline
        simpa [serializeNested] using ihE e he hline
      | parts ps =>
        have hps : Value.sizeList ps ≤ n := by
          simp only [Value.size] at h
          omega
        simp only [Value.singleLineNested] at hline
        simp only [serializeNested]
        exact Join_noBreak _ (ihP ps hps hline)
      | nil =>
        simp only [Value.singleLineNested, hasNoBreak_iff] at hline
        simpa [serializeNested, Sprint_single] using hline
      | str s =>
        simp only [Value.singleLineNested, hasNoBreak_iff] at hline
        simpa [serializeNested, Sprint_single] using hline
      | other t k =>
        simp only [Value.singleLineNested, hasNoBreak_iff] at hline
        simpa [serializeNested, Sprint_single] using hline
    · intro ps h hline
      cases ps with
      | nil => simp [serializeErrorParts]
      | cons p rest =>
        simp only [Value.sizeList] at h
        have hrest : Value.sizeList rest ≤ n := by omega
        cases p with
        | error e =>
          have he : e.size ≤ n := by
            simp only [Value.size] at h
            omega
          simp only [Value.singleLineParts, Bool.and_eq_true] at hline
          simp only [serializeErrorParts, List.mem_cons]
          rintro s (hs | hs)
          · rw [hs]
            exact ihE e he hline.1
          · exact ihP rest hrest hline.2 s hs
        | nil =>
          simp only [Value.singleLineParts, Bool.and_eq_true, hasNoBreak_iff] at hline
          simp only [serializeErrorParts, List.mem_cons, Sprint_single]
          rintro s (hs | hs)
          · rw [hs]
            exact hline.1
          · exact ihP rest hrest hline.2 s hs
        | str s0 =>
          simp only [Value.singleLineParts, Bool.and_eq_true, hasNoBreak_iff] at hline
          simp only [serializeErrorParts, List.mem_cons]
          rintro s (hs | hs)
          · rw [hs]
            exact hline.1
          · exact ihP rest hrest hline.2 s hs
        | other t k =>
          simp only [Value.singleLineParts, Bool.and_eq_true, hasNoBreak_iff] at hline
          simp only [serializeErrorParts, List.mem_cons, Sprint_single]
          rintro s (hs | hs)
          · rw [hs]
            exact hline.1
          · exact ihP rest hrest hline.2 s hs
        | parts qs =>
          simp only [Value.singleLineParts, Bool.and_eq_true, hasNoBreak_iff] at hline
          simp only [serializeErrorParts, List.mem_cons, Sprint_single]
          rintro s (hs | hs)
          · rw [hs]
            exact hline.1
          · exact ihP rest hrest hline.2 s hs

theorem wrapLines_of_no_break (L : Lib) (N : Nat) (format : String) (values : List Value)
    (h : '\n' ∉ (L.Sprintf format values).data) :
    wrapLines L N format values = L.Sprintf format values := by
  have htrim : TrimSuffix (L.Sprintf format values) "\n" = L.Sprintf format values := by
    apply TrimSuffix_newline_of_not_ends
    intro t ht
    apply h
    rw [ht]
    simp
  apply String.ext
  simp only [wrapLines]
  rw [Replace_newline, htrim, lines_of_no_break _ h]
  simp [indentContinuation, unlines]

theorem exampleLib_Sprintf_str (s : String) : exampleLib.Sprintf "%s" [Value.str s] = s := by
  have hfmt : ("%s" : String).data = ['%', 's'] := rfl
  simp [exampleLib, hfmt, basicSprintf, basicText]

/-- C18: under a non-text output format, if no message, no plain-string part
and no leaf default text of an error tree contains a line break, then the
serialization of the error contains no line break; and then, `fmt.Sprintf`
printing a string operand under "%s" as the string itself, wrapLines with the
template "%s" returns that serialization unchanged for every formatting basic
length. -/
theorem serializeError_single_line (L : Lib) (format : outputFormat)
    (hfmt : format ≠ outputFormatText) (e : GoError) (hline : e.singleLine L = true) :
    '\n' ∉ (serializeError L format e).data
      ∧ ((∀ s : String, L.Sprintf "%s" [Value.str s] = s) →
          ∀ N : Nat, wrapLines L N "%s" [Value.str (serializeError L format e)]
            = serializeError L format e) := by
  have hno : '\n' ∉ (serializeError L format e).data :=
    (serialize_singleLine L format hfmt e.size).1 e (le_refl _) hline
  refine ⟨hno, ?_⟩
  intro hS N
  have h := wrapLines_of_no_break L N "%s" [Value.str (serializeError L format e)]
    (by rw [hS]; exact hno)
  rw [h, hS]

/-- Witness for C18: structured output and a hierarchical error with the parts
"a", a plain error "b" and "c", none with a line break; wrapped with basic
length 4 its serialization is unchanged. -/
theorem serializeError_single_line_witness :
    outputFormatJSON ≠ outputFormatText
      ∧ (GoError.hier "M" (.parts [.str "a", .error (.plain "b" "b" false), .str "c"])).singleLine
          exampleLib = true
      ∧ wrapLines exampleLib 4 "%s"
          [Value.str (serializeError exampleLib outputFormatJSON
            (.hier "M" (.parts [.str "a", .error (.plain "b" "b" false), .str "c"])))]
        = serializeError exampleLib outputFormatJSON
            (.hier "M" (.parts [.str "a", .error (.plain "b" "b" false), .str "c"])) :=
  ⟨by decide, by decide,
   (serializeError_single_line exampleLib outputFormatJSON (by decide)
      (.hier "M" (.parts [.str "a", .error (.plain "b" "b" false), .str "c"]))
      (by decide)).2 exampleLib_Sprintf_str 4⟩

end Lorg
